import Mathlib

/-!
# Verification of the Report Normalization & Scoring Engine

Shallow embedding of `src/frontend/script.js` (Analista de Qualidade).
JavaScript values are modelled by the inductive type `Js`; JavaScript
numbers are modelled as integers (all numeric literals in the program and
its payloads are integers).  Property access on `undefined`/`null` throws a
`TypeError` in JavaScript, so dereferencing is modelled in the `Option`
monad, `none` standing for a thrown exception.
-/

namespace QA

/-- Model of a JavaScript (JSON-parsed) value. -/
inductive Js where
  | undef
  | null
  | bool (b : Bool)
  | num (n : Int)
  | str (s : String)
  | arr (xs : List Js)
  | obj (kvs : List (String × Js))

/-- JavaScript truthiness: `undefined`, `null`, `false`, `0` and `""` are
falsy; every object and array is truthy. -/
def truthy : Js → Bool
  | .undef => false
  | .null => false
  | .bool b => b
  | .num n => n != 0
  | .str s => !s.isEmpty
  | .arr _ => true
  | .obj _ => true

/-- First binding of a key in an object's property list (JavaScript objects
have unique keys, so first match is the JS lookup); absent keys give
`undefined`. -/
def lookupKey : List (String × Js) → String → Js
  | [], _ => .undef
  | (k, v) :: rest, key => if k = key then v else lookupKey rest key

/-- `v.k` — property access.  Throws (`none`) on `undefined`/`null`;
yields `undefined` for missing keys and for primitive receivers. -/
def getProp : Js → String → Option Js
  | .undef, _ => none
  | .null, _ => none
  | .obj kvs, k => some (lookupKey kvs k)
  | _, _ => some Js.undef

/-- `a || b` — JavaScript short-circuit "or" on values. -/
def jsOr (a b : Js) : Js := if truthy a then a else b

/-- `v?.k1.k2` — optional chaining on the first step only, as in
`analises[category]?.dados_completos.recomendacoes` (script.js line 630):
a nullish `v` short-circuits to `undefined`, otherwise `v.k1` is
dereferenced normally and may throw. -/
def optChain2 (v : Js) (k1 k2 : String) : Option Js :=
  match v with
  | .undef => some .undef
  | .null => some .undef
  | v => do
    let b ← getProp v k1
    getProp b k2

/-- Strict string-equality test (`===` against a string literal). -/
def strictEqStr (v : Js) (s : String) : Bool :=
  match v with
  | .str t => t = s
  | _ => false

/-- Loose equality `v == 'lit'` against a string literal, defined on
primitive operands (for objects and arrays JavaScript would invoke
`toPrimitive`, which is outside the model, hence `none`). -/
def looseEqStr (v : Js) (s : String) : Option Bool :=
  match v with
  | .str t => some (t = s)
  | .num _ => some false
  | .bool _ => some false
  | .null => some false
  | .undef => some false
  | .arr _ => none
  | .obj _ => none

/-- A primitive (non-object, non-array) value. -/
def isPrimitive : Js → Bool
  | .arr _ => false
  | .obj _ => false
  | _ => true

/-- `getQualityClass(scoreOrLevel)` — script.js lines 720–735, verbatim:
numeric thresholds 80/60/40/20 on the number branch, the letter switch
(`===` comparisons, default `'quality-average'`) otherwise. -/
def getQualityClass : Js → String
  | .num n =>
    if n ≥ 80 then "quality-excellent"
    else if n ≥ 60 then "quality-good"
    else if n ≥ 40 then "quality-average"
    else if n ≥ 20 then "quality-poor"
    else "quality-critical"
  | .str s =>
    if s = "A+" then "quality-excellent"
    else if s = "B" then "quality-good"
    else if s = "C" then "quality-poor"
    else "quality-average"
  | _ => "quality-average"

/-- `getNumericScore(nivel)` — script.js lines 707–718, verbatim:
numbers pass through, the qualitative levels map via the switch
(`===` comparisons, default `0`). -/
def getNumericScore : Js → Int
  | .num n => n
  | .str s =>
    if s = "Alto" then 85
    else if s = "Médio" then 65
    else if s = "Baixo" then 40
    else 0
  | _ => 0

/-- Values that hit the `default` branch of `getNumericScore`'s switch:
everything that is neither a number nor one of the three level strings. -/
def isOtherLevel : Js → Bool
  | .num _ => false
  | .str s => !(s = "Alto" || s = "Médio" || s = "Baixo")
  | _ => true

/-- The decimal digit character for `n < 10` (`9` as the final fallback). -/
def digitChar (n : Nat) : Char :=
  if n = 0 then '0' else if n = 1 then '1' else if n = 2 then '2' else if n = 3 then '3'
  else if n = 4 then '4' else if n = 5 then '5' else if n = 6 then '6' else if n = 7 then '7'
  else if n = 8 then '8' else '9'

/-- Decimal rendering of a natural number, fuelled so that it reduces in
the kernel (the fuel is always sufficient, see `natChars_eq`). -/
def natCharsAux : Nat → Nat → List Char
  | 0, _ => []
  | fuel + 1, n =>
    if n < 10 then [digitChar n]
    else natCharsAux fuel (n / 10) ++ [digitChar (n % 10)]

/-- Decimal rendering of a natural number (most-significant digit first). -/
def natChars (n : Nat) : List Char := natCharsAux (n + 1) n

/-- Decimal rendering of an integer, as JavaScript's `String(n)` for
integral numbers. -/
def intChars (i : Int) : List Char :=
  if i < 0 then '-' :: natChars i.natAbs else natChars i.toNat

def intToString (i : Int) : String := String.mk (intChars i)

/-- The whitespace characters relevant to JavaScript `trim` and to JSON. -/
def isWSChar (c : Char) : Bool := c == ' ' || c == '\n' || c == '\t' || c == '\r'

/-- `String.prototype.trim`, modelled on character lists. -/
def trimChars (l : List Char) : List Char :=
  ((l.dropWhile isWSChar).reverse.dropWhile isWSChar).reverse

/-- `String.prototype.trim` on strings. -/
def strTrim (s : String) : String := String.mk (trimChars s.data)

/-- `String.prototype.split` on a character predicate (the regex `[,\n]`
splits at every single matching character, keeping empty groups). -/
def splitChars (p : Char → Bool) : List Char → List (List Char)
  | [] => [[]]
  | c :: cs =>
    if p c then [] :: splitChars p cs
    else
      match splitChars p cs with
      | [] => [[c]]
      | g :: gs => (c :: g) :: gs

/-- `s.split(/[,\n]/)` on strings. -/
def strSplit (s : String) (p : Char → Bool) : List String :=
  (splitChars p s.data).map String.mk

/-- JavaScript string coercion of a value (template literals, `+ '%'`).
Coercion of arrays and objects (`toString`/`join`) is outside the model. -/
def jsToStr : Js → Option String
  | .num n => some (intToString n)
  | .str s => some s
  | .bool true => some "true"
  | .bool false => some "false"
  | .null => some "null"
  | .undef => some "undefined"
  | .arr _ => none
  | .obj _ => none

/-- JavaScript `+` on values, modelled for numeric operands only
(string concatenation and other coercions are outside the model). -/
def jsAdd : Js → Js → Option Js
  | .num a, .num b => some (.num (a + b))
  | _, _ => none

/-- The category-bundle extraction repeated at script.js lines 401–439,
516–520 and 574–578:
`const analises = results.analises || {};`
`const seguranca = analises.seguranca.metricas || {};` (and the three
other categories).  Note `analises.seguranca` is dereferenced without any
guard, so a missing category section throws. -/
def extractBundles (results : Js) : Option (Js × Js × Js × Js) := do
  let analises := jsOr (← getProp results "analises") (.obj [])
  let seguranca := jsOr (← getProp (← getProp analises "seguranca") "metricas") (.obj [])
  let desempenho := jsOr (← getProp (← getProp analises "desempenho") "metricas") (.obj [])
  let confiabilidade := jsOr (← getProp (← getProp analises "confiabilidade") "metricas") (.obj [])
  let testes := jsOr (← getProp (← getProp analises "testes") "metricas") (.obj [])
  return (seguranca, desempenho, confiabilidade, testes)

/-- The security score of script.js lines 409–411:
`seguranca.nivel_risco == 'Alto' ? 'C' : seguranca.nivel_risco == 'Médio' ? 'B' : 'A'`. -/
def securityScore (seguranca : Js) : Option String := do
  let v ← getProp seguranca "nivel_risco"
  let isAlto ← looseEqStr v "Alto"
  if isAlto then return "C"
  else
    let isMedio ← looseEqStr v "Médio"
    if isMedio then return "B" else return "A"

/-- The testing score string of script.js lines 439–441:
`const coveragePercent = testes.cobertura_estimada || 0;`
`score: coveragePercent + '%'`. -/
def testingScore (testes : Js) : Option String := do
  let coveragePercent := jsOr (← getProp testes "cobertura_estimada") (.num 0)
  let s ← jsToStr coveragePercent
  return s ++ "%"

/-- Security score as displayed by `displayMetrics` on a full payload. -/
def displayMetricsSecurityScore (results : Js) : Option String := do
  let (seguranca, _, _, _) ← extractBundles results
  securityScore seguranca

/-- Testing score as displayed by `displayMetrics` on a full payload. -/
def displayMetricsTestingScore (results : Js) : Option String := do
  let (_, _, _, testes) ← extractBundles results
  testingScore testes

/-- The problem-distribution dataset of `displayProblemsChart`
(script.js lines 527–536): per-category sums of the "bad" metric fields,
each field defaulted with `|| 0`. -/
def displayProblemsChartData (results : Js) : Option (List Js) := do
  let (seguranca, desempenho, confiabilidade, testes) ← extractBundles results
  let s1 ← jsAdd (jsOr (← getProp seguranca "vulnerabilidades_encontradas") (.num 0))
                 (jsOr (← getProp seguranca "funcoes_sem_tratamento") (.num 0))
  let s2 ← jsAdd (jsOr (← getProp desempenho "estruturas_ineficientes") (.num 0))
                 (jsOr (← getProp desempenho "funcoes_longas") (.num 0))
  let s3 ← jsAdd (jsOr (← getProp confiabilidade "problemas_tratamento_erros") (.num 0))
                 (jsOr (← getProp confiabilidade "violacoes_padroes") (.num 0))
  let s4 := jsOr (← getProp testes "funcionalidades_sem_teste") (.num 0)
  return [s1, s2, s3, s4]

/-- The quality-radar dataset of `displayQualityChart`
(script.js lines 589–594): `getNumericScore` on the three qualitative
fields, and `testes.cobertura_estimada || 0` taken directly. -/
def displayQualityChartData (results : Js) : Option (List Js) := do
  let (seguranca, desempenho, confiabilidade, testes) ← extractBundles results
  let v1 ← getProp seguranca "nivel_risco"
  let v2 ← getProp desempenho "score_performance"
  let v3 ← getProp confiabilidade "nivel_confiabilidade"
  let v4 ← getProp testes "cobertura_estimada"
  return [.num (getNumericScore v1), .num (getNumericScore v2), .num (getNumericScore v3),
          jsOr v4 (.num 0)]

/-- The `rec.trim()` render step applied to every entry of an array value
(script.js line 647); a non-string entry has no `trim` method and throws. -/
def trimAll : List Js → Option (List String)
  | [] => some []
  | .str t :: rest => (trimAll rest).map (fun l => strTrim t :: l)
  | _ :: _ => none

/-- Recommendation normalization of `displayRecommendations`
(script.js lines 630–647): the `|| []` default, the string split on
`/[,\n]/` with the truthiness filter, the not-an-array fallback, and the
`rec.trim()` applied to every rendered entry.  A non-string array entry
makes `rec.trim()` throw (`none`). -/
def normalizeRecommendations (value : Js) : Option (List String) :=
  match jsOr value (.arr []) with
  | .str s =>
    some (((strSplit s (fun c => c == ',' || c == '\n')).filter
      (fun r => !(trimChars r.data).isEmpty)).map strTrim)
  | .arr xs => trimAll xs
  | _ => some []

/-- Per-category recommendation list of `displayRecommendations`
(script.js lines 623–647): `const analises = results.analises;` then
`analises[category]?.dados_completos.recomendacoes || []` and the
normalization above. -/
def displayRecommendationsFor (results : Js) (category : String) : Option (List String) := do
  let analises ← getProp results "analises"
  let sec ← getProp analises category
  let value ← optChain2 sec "dados_completos" "recomendacoes"
  normalizeRecommendations value

/-- The import validation of `handleFile` (script.js lines 152–155):
`if (!jsonData.analises || !jsonData.repositorio_url)` — rejected (`some
false`) when either is falsy; `none` if the dereference itself throws. -/
def validatePayload (jsonData : Js) : Option Bool := do
  let a ← getProp jsonData "analises"
  let r ← getProp jsonData "repositorio_url"
  return truthy a && truthy r

/-- Whether an object literally carries a key (used to state claims about
"absent" fields, as opposed to falsy present fields). -/
def hasKey (v : Js) (k : String) : Bool :=
  match v with
  | .obj kvs => kvs.any (fun kv => kv.1 == k)
  | _ => false

/-- The metric field a defaulted bundle `m || {}` yields for key `k`. -/
def fieldOf (m : Js) (k : String) : Js :=
  (getProp (jsOr m (.obj [])) k).getD Js.undef

/-- Numeric reading of a metric field, absent counting as zero. -/
def numD : Js → Int
  | .num n => n
  | _ => 0

/-- A metric field that is a number or absent. -/
def numOrAbsent : Js → Bool
  | .num _ => true
  | .undef => true
  | _ => false

/-- Hypothesis for C2: a qualitative-level field whose numeric values, if
any, stay inside `[0,100]` (non-numbers are mapped by `getNumericScore`
into `{85,65,40,0}` anyway). -/
def inRangeLevel : Js → Bool
  | .num n => decide (0 ≤ n ∧ n ≤ 100)
  | _ => true

/-- Hypothesis for C2 on `cobertura_estimada`: a number inside `[0,100]`,
or falsy (so the `|| 0` default applies). -/
def inRangeCobertura : Js → Bool
  | .num n => decide (0 ≤ n ∧ n ≤ 100)
  | v => !truthy v

/-- JSON escaping of one character, as `JSON.stringify` produces it for
the characters occurring in reports (the `\uXXXX` escapes for other
control characters are outside the model). -/
def escChar (c : Char) : List Char :=
  if c = '"' then ['\\', '"']
  else if c = '\\' then ['\\', '\\']
  else if c = '\n' then ['\\', 'n']
  else if c = '\t' then ['\\', 't']
  else if c = '\r' then ['\\', 'r']
  else [c]

/-- JSON escaping of a character list. -/
def escList : List Char → List Char
  | [] => []
  | c :: cs => escChar c ++ escList cs

/-- Inverse of `escChar` on the escape letter. -/
def unescChar (c : Char) : Option Char :=
  if c = '"' then some '"'
  else if c = '\\' then some '\\'
  else if c = 'n' then some '\n'
  else if c = 't' then some '\t'
  else if c = 'r' then some '\r'
  else none

/-- JSON string-body parser: consumes up to and including the closing
quote, resolving escapes. -/
def parseStrChars : List Char → Option (List Char × List Char)
  | [] => none
  | c :: cs =>
    if c = '"' then some ([], cs)
    else if c = '\\' then
      match cs with
      | [] => none
      | d :: cs2 =>
        match unescChar d, parseStrChars cs2 with
        | some u, some (ds, rest) => some (u :: ds, rest)
        | _, _ => none
    else
      match parseStrChars cs with
      | some (ds, rest) => some (c :: ds, rest)
      | none => none

/-- Decimal digit recognition. -/
def isDigitC (c : Char) : Bool :=
  c == '0' || c == '1' || c == '2' || c == '3' || c == '4' ||
  c == '5' || c == '6' || c == '7' || c == '8' || c == '9'

/-- Value of a decimal digit character. -/
def digitVal (c : Char) : Nat :=
  if c == '0' then 0 else if c == '1' then 1 else if c == '2' then 2
  else if c == '3' then 3 else if c == '4' then 4 else if c == '5' then 5
  else if c == '6' then 6 else if c == '7' then 7 else if c == '8' then 8
  else 9

/-- Consumes a maximal run of digits, folding them onto `acc`. -/
def takeDigits : List Char → Nat → Nat × List Char
  | [], acc => (acc, [])
  | c :: cs, acc => if isDigitC c then takeDigits cs (acc * 10 + digitVal c) else (acc, c :: cs)

/-- Parses a natural number (at least one digit required). -/
def parseNatChars : List Char → Option (Nat × List Char)
  | [] => none
  | c :: cs => if isDigitC c then some (takeDigits cs (digitVal c)) else none

/-- Parses a JSON integer (optional leading minus). -/
def parseIntChars (l : List Char) : Option (Int × List Char) :=
  match l with
  | [] => none
  | c :: cs =>
    if c = '-' then (parseNatChars cs).map (fun p => (-(p.1 : Int), p.2))
    else (parseNatChars l).map (fun p => ((p.1 : Int), p.2))

/-- Skips JSON whitespace. -/
def skipWS (l : List Char) : List Char := l.dropWhile isWSChar

/-- The indentation `JSON.stringify(·, null, 2)` emits at depth `d`. -/
def indentChars (d : Nat) : List Char := List.replicate (2 * d) ' '

mutual

/-- `JSON.stringify(v, null, 2)` (script.js line 774) at depth `d`, on
character lists.  `undefined` never occurs in a well-formed report
(`wfJson`); outside that domain it is rendered as `null` (JavaScript's
array behaviour). -/
def renderVal : Js → Nat → List Char
  | .undef, _ => ('n' :: 'u' :: 'l' :: 'l' :: [])
  | .null, _ => ('n' :: 'u' :: 'l' :: 'l' :: [])
  | .bool true, _ => ('t' :: 'r' :: 'u' :: 'e' :: [])
  | .bool false, _ => ('f' :: 'a' :: 'l' :: 's' :: 'e' :: [])
  | .num i, _ => intChars i
  | .str s, _ => '"' :: (escList s.data ++ ['"'])
  | .arr [], _ => ('[' :: ']' :: [])
  | .arr (x :: xs), d =>
    '[' :: '\n' :: (indentChars (d + 1) ++ renderVal x (d + 1) ++ renderItems xs (d + 1)
      ++ '\n' :: (indentChars d ++ [']']))
  | .obj [], _ => ('{' :: '}' :: [])
  | .obj ((k, v) :: kvs), d =>
    '{' :: '\n' :: (indentChars (d + 1) ++ renderField k v (d + 1) ++ renderFields kvs (d + 1)
      ++ '\n' :: (indentChars d ++ ['}']))

/-- One `"key": value` binding. -/
def renderField (k : String) (v : Js) (d : Nat) : List Char :=
  '"' :: (escList k.data ++ ('"' :: ':' :: ' ' :: renderVal v d))

/-- The remaining array items, each preceded by `,\n` and indentation. -/
def renderItems : List Js → Nat → List Char
  | [], _ => []
  | x :: xs, d => ',' :: '\n' :: (indentChars d ++ renderVal x d ++ renderItems xs d)

/-- The remaining object bindings, each preceded by `,\n` and indentation. -/
def renderFields : List (String × Js) → Nat → List Char
  | [], _ => []
  | (k, v) :: kvs, d => ',' :: '\n' :: (indentChars d ++ renderField k v d ++ renderFields kvs d)

end

/-- JavaScript object-property insertion: an existing key keeps its
position and gets the new value, a new key is appended. -/
def insertKV : List (String × Js) → String → Js → List (String × Js)
  | [], k, v => [(k, v)]
  | (k', v') :: rest, k, v =>
    if k' = k then (k, v) :: rest else (k', v') :: insertKV rest k v

/-- Folding parsed bindings into a JavaScript object (duplicate keys
collapse, last value wins, as in `JSON.parse`). -/
def collapseFields (fs : List (String × Js)) : List (String × Js) :=
  fs.foldl (fun acc kv => insertKV acc kv.1 kv.2) []

mutual

/-- Fuelled JSON value parser (`JSON.parse`, script.js line 148,
restricted to integral numbers and the escapes of `escChar`). -/
def parseVal : Nat → List Char → Option (Js × List Char)
  | 0, _ => none
  | fuel + 1, l =>
    match skipWS l with
    | [] => none
    | c :: cs =>
      if c = 'n' then
        match cs with
        | 'u' :: 'l' :: 'l' :: r => some (.null, r)
        | _ => none
      else if c = 't' then
        match cs with
        | 'r' :: 'u' :: 'e' :: r => some (.bool true, r)
        | _ => none
      else if c = 'f' then
        match cs with
        | 'a' :: 'l' :: 's' :: 'e' :: r => some (.bool false, r)
        | _ => none
      else if c = '"' then
        (parseStrChars cs).map (fun p => (.str (String.mk p.1), p.2))
      else if c = '[' then
        match skipWS cs with
        | ']' :: r => some (.arr [], r)
        | l2 => (parseItems fuel l2).map (fun p => (.arr p.1, p.2))
      else if c = '{' then
        match skipWS cs with
        | '}' :: r => some (.obj [], r)
        | l2 => (parseFields fuel l2).map (fun p => (.obj (collapseFields p.1), p.2))
      else if c = '-' || isDigitC c then
        (parseIntChars (c :: cs)).map (fun p => (.num p.1, p.2))
      else none

/-- Parses the items of a non-empty array, up to and including `]`. -/
def parseItems : Nat → List Char → Option (List Js × List Char)
  | 0, _ => none
  | fuel + 1, l => do
    let (v, r) ← parseVal fuel l
    match skipWS r with
    | ',' :: r2 => do
      let (vs, r3) ← parseItems fuel r2
      return (v :: vs, r3)
    | ']' :: r2 => some ([v], r2)
    | _ => none

/-- Parses the bindings of a non-empty object, up to and including `}`. -/
def parseFields : Nat → List Char → Option (List (String × Js) × List Char)
  | 0, _ => none
  | fuel + 1, l =>
    match skipWS l with
    | '"' :: cs => do
      let (kcs, r) ← parseStrChars cs
      match skipWS r with
      | ':' :: r2 => do
        let (v, r3) ← parseVal fuel r2
        match skipWS r3 with
        | ',' :: r4 => do
          let (fs, r5) ← parseFields fuel r4
          return ((String.mk kcs, v) :: fs, r5)
        | '}' :: r4 => some ([(String.mk kcs, v)], r4)
        | _ => none
      | _ => none
    | _ => none

end

mutual

/-- Parser fuel sufficient for a value (one unit per `parseVal`/
`parseItems`/`parseFields` activation). -/
def pfuel : Js → Nat
  | .arr [] => 1
  | .arr (x :: xs) => 1 + pfuelList (x :: xs)
  | .obj [] => 1
  | .obj (kv :: kvs) => 1 + pfuelFields (kv :: kvs)
  | _ => 1

def pfuelList : List Js → Nat
  | [] => 0
  | [x] => 1 + pfuel x
  | x :: y :: ys => 1 + max (pfuel x) (pfuelList (y :: ys))

def pfuelFields : List (String × Js) → Nat
  | [] => 0
  | [(_, v)] => 1 + pfuel v
  | (_, v) :: kv :: kvs => 1 + max (pfuel v) (pfuelFields (kv :: kvs))

end

/-- No duplicate keys at one object level. -/
def nodupKeysB : List (String × Js) → Bool
  | [] => true
  | (k, _) :: rest => !(rest.any (fun kv => kv.1 == k)) && nodupKeysB rest

mutual

/-- A JSON-representable JavaScript value: no `undefined` anywhere and no
duplicate object keys — exactly what `JSON.parse` can produce, hence what
any report held in `currentResults` satisfies. -/
def wfJson : Js → Bool
  | .undef => false
  | .null => true
  | .bool _ => true
  | .num _ => true
  | .str _ => true
  | .arr xs => wfJsonList xs
  | .obj kvs => nodupKeysB kvs && wfJsonFields kvs

def wfJsonList : List Js → Bool
  | [] => true
  | x :: xs => wfJson x && wfJsonList xs

def wfJsonFields : List (String × Js) → Bool
  | [] => true
  | (_, v) :: kvs => wfJson v && wfJsonFields kvs

end

/-- `JSON.parse` on a whole string (trailing whitespace allowed). -/
def parseJsonText (s : String) : Option Js :=
  match parseVal (s.data.length + 1) s.data with
  | some (v, rest) => if (skipWS rest).isEmpty then some v else none
  | none => none

/-- `downloadReport`'s serialization (script.js line 774):
`JSON.stringify(currentResults, null, 2)`. -/
def exportJSON (r : Js) : String := String.mk (renderVal r 0)

/-- The import pipeline of `handleFile` (script.js lines 148–155):
`JSON.parse` then the `analises`/`repositorio_url` check; `some` exactly
when a re-imported report is accepted and becomes `currentResults`. -/
def importJSON (text : String) : Option Js :=
  match parseJsonText text with
  | none => none
  | some j =>
    match validatePayload j with
    | some true => some j
    | _ => none

/-- Prefix test on character lists. -/
def startsWith : List Char → List Char → Bool
  | _, [] => true
  | [], _ :: _ => false
  | h :: ht, n :: nt => h == n && startsWith ht nt

/-- Substring test on character lists. -/
def hasSubstr : List Char → List Char → Bool
  | [], needle => needle.isEmpty
  | h :: t, needle => startsWith (h :: t) needle || hasSubstr t needle

/-- `String.prototype.includes`. -/
def strContains (s sub : String) : Bool := hasSubstr s.data sub.data

/-- `String.prototype.endsWith`. -/
def strEndsWith (s suffix : String) : Bool :=
  startsWith s.data.reverse suffix.data.reverse

/-- `Object.keys` — throws on nullish, lists own keys of objects, yields
`[]` for other primitives. -/
def objectKeys : Js → Option (List String)
  | .undef => none
  | .null => none
  | .obj kvs => some (kvs.map Prod.fst)
  | _ => some []

/-- `displayRepoInfo` (script.js lines 376–396): `extractRepoName` calls
`.match` on `results.repositorio_url`, which requires a string. -/
def displayRepoInfoOk (results : Js) : Bool :=
  match getProp results "repositorio_url" with
  | some (.str _) => true
  | _ => false

/-- The dereferences `displayMetrics` performs after extraction
(desempenho's `score_performance + "%"` string coercion included). -/
def displayMetricsRun (results : Js) : Option Unit := do
  let (seguranca, desempenho, confiabilidade, testes) ← extractBundles results
  let _ ← securityScore seguranca
  let _ ← jsToStr (← getProp desempenho "score_performance")
  let _ ← getProp confiabilidade "nivel_confiabilidade"
  let _ ← testingScore testes
  return ()

/-- `displayTechnicalDetails` (script.js lines 661–675): each category's
`metricas` is passed to `createDetailsHTML`, whose `Object.keys` throws on
nullish input. -/
def displayTechnicalDetailsRun (results : Js) : Option Unit := do
  let analises ← getProp results "analises"
  let _ ← objectKeys (← getProp (← getProp analises "seguranca") "metricas")
  let _ ← objectKeys (← getProp (← getProp analises "desempenho") "metricas")
  let _ ← objectKeys (← getProp (← getProp analises "confiabilidade") "metricas")
  let _ ← objectKeys (← getProp (← getProp analises "testes") "metricas")
  return ()

/-- The whole `displayResults` call tree (script.js lines 351–374),
`some ()` exactly when no step throws. -/
def displayResultsRun (results : Js) : Option Unit := do
  if displayRepoInfoOk results then
    let _ ← displayMetricsRun results
    let _ ← displayProblemsChartData results
    let _ ← displayQualityChartData results
    let _ ← displayRecommendationsFor results "seguranca"
    let _ ← displayRecommendationsFor results "desempenho"
    let _ ← displayRecommendationsFor results "confiabilidade"
    let _ ← displayRecommendationsFor results "testes"
    displayTechnicalDetailsRun results
  else none

/-- An uploaded file as `handleFile` sees it. -/
structure JsFile where
  type : String
  name : String
  content : String

/-- Observable outcome of `handleFile`: the resulting `currentResults`,
whether the file's content was read at all, and the alert shown. -/
structure HandleOutcome where
  results : Option Js
  contentRead : Bool
  alertMsg : Option String

def msgInvalidFile : String := "Por favor, selecione um arquivo JSON válido."

def msgParseError : String :=
  "Erro ao processar o arquivo JSON. Verifique se o arquivo é válido."

def msgNotAnalysis : String :=
  "O arquivo JSON não parece ser uma análise válida. Verifique se contém as seções \"analises\" e \"repositorio_url\"."

/-- `handleFile` (script.js lines 139–168).  The MIME/extension guard
rejects before any read; afterwards the content is read and parsed inside
`try`, so a throw anywhere (parse, validation dereference, display)
surfaces as the parse-error alert.  `currentResults` is assigned before
`displayResults`, so it is updated even when display later throws. -/
def handleFile (file : JsFile) (currentResults : Option Js) : HandleOutcome :=
  if !(strContains file.type "json") && !(strEndsWith file.name ".json") then
    { results := currentResults, contentRead := false, alertMsg := some msgInvalidFile }
  else
    match parseJsonText file.content with
    | none => { results := currentResults, contentRead := true, alertMsg := some msgParseError }
    | some jsonData =>
      match validatePayload jsonData with
      | none => { results := currentResults, contentRead := true, alertMsg := some msgParseError }
      | some false =>
        { results := currentResults, contentRead := true, alertMsg := some msgNotAnalysis }
      | some true =>
        { results := some jsonData, contentRead := true,
          alertMsg :=
            if (displayResultsRun jsonData).isSome then none else some msgParseError }

/-- A full raw payload carrying the four category sections with the given
`metricas` values (test harness for quantifying over metric bundles). -/
def mkPayload (m1 m2 m3 m4 : Js) : Js :=
  .obj [("repositorio_url", .str "https://github.com/u/r"),
        ("timestamp", .str "2024-01-01T00:00:00Z"),
        ("status", .str "sucesso"),
        ("analises", .obj [
          ("seguranca", .obj [("metricas", m1)]),
          ("desempenho", .obj [("metricas", m2)]),
          ("confiabilidade", .obj [("metricas", m3)]),
          ("testes", .obj [("metricas", m4)])])]

/-- A character list that does not start with a digit (boundary condition
for number parsing). -/
def headNotDigit : List Char → Bool
  | [] => true
  | c :: _ => !isDigitC c

/-- A character list made of whitespace only. -/
def allWS (l : List Char) : Bool := l.all isWSChar

/-- The characters a rendered JSON value can start with. -/
def validStart (c : Char) : Bool :=
  c == 'n' || c == 't' || c == 'f' || c == '"' || c == '[' || c == '{' ||
  c == '-' || isDigitC c

theorem jsOr_obj (kvs : List (String × Js)) (b : Js) : jsOr (.obj kvs) b = .obj kvs := rfl

theorem getProp_obj (kvs : List (String × Js)) (k : String) :
    getProp (.obj kvs) k = some (lookupKey kvs k) := rfl

theorem fieldOf_obj (kvs : List (String × Js)) (k : String) :
    fieldOf (.obj kvs) k = lookupKey kvs k := rfl

theorem getProp_jsOr_default (m : Js) (k : String) :
    getProp (jsOr m (.obj [])) k = some (fieldOf m k) := by
  unfold fieldOf
  cases m with
  | undef => rfl
  | null => rfl
  | bool b => cases b <;> rfl
  | num n => by_cases hn : n = 0 <;> simp [jsOr, truthy, hn, getProp]
  | str s => by_cases hs : s.isEmpty <;> simp [jsOr, truthy, hs, getProp]
  | arr xs => rfl
  | obj kvs => rfl

theorem jsOr_zero_of_numOrAbsent {v : Js} (h : numOrAbsent v = true) :
    jsOr v (.num 0) = .num (numD v) := by
  cases v with
  | num n => by_cases hn : n = 0 <;> simp [jsOr, truthy, numD, hn]
  | undef => rfl
  | _ => simp [numOrAbsent] at h

theorem getNumericScore_bounds {v : Js} (h : inRangeLevel v = true) :
    0 ≤ getNumericScore v ∧ getNumericScore v ≤ 100 := by
  cases v with
  | num n =>
    have := of_decide_eq_true h
    simpa [getNumericScore] using this
  | str s => simp only [getNumericScore]; split_ifs <;> omega
  | undef => simp [getNumericScore]
  | null => simp [getNumericScore]
  | bool b => simp [getNumericScore]
  | arr xs => simp [getNumericScore]
  | obj kvs => simp [getNumericScore]

theorem jsOr_cobertura {v : Js} (h : inRangeCobertura v = true) :
    ∃ d : Int, jsOr v (.num 0) = .num d ∧ 0 ≤ d ∧ d ≤ 100 := by
  cases v with
  | num n =>
    by_cases hn : n = 0
    · exact ⟨0, by simp [jsOr, truthy, hn], by omega, by omega⟩
    · have := of_decide_eq_true h
      exact ⟨n, by simp [jsOr, truthy, hn], this.1, this.2⟩
  | undef => exact ⟨0, rfl, by omega, by omega⟩
  | null => exact ⟨0, rfl, by omega, by omega⟩
  | bool b =>
    cases b with
    | false => exact ⟨0, rfl, by omega, by omega⟩
    | true => simp [inRangeCobertura, truthy] at h
  | str s =>
    have hs : s.isEmpty = true := by
      simpa [inRangeCobertura, truthy] using h
    exact ⟨0, by simp [jsOr, truthy, hs], by omega, by omega⟩
  | arr xs => simp [inRangeCobertura, truthy] at h
  | obj kvs => simp [inRangeCobertura, truthy] at h

theorem qualityData_mkPayload (m1 m2 m3 m4 : Js) :
    displayQualityChartData (mkPayload m1 m2 m3 m4) =
      some [.num (getNumericScore (fieldOf m1 "nivel_risco")),
            .num (getNumericScore (fieldOf m2 "score_performance")),
            .num (getNumericScore (fieldOf m3 "nivel_confiabilidade")),
            jsOr (fieldOf m4 "cobertura_estimada") (.num 0)] := by
  simp [displayQualityChartData, extractBundles, mkPayload, getProp_obj, lookupKey,
    jsOr_obj, fieldOf_obj, getProp_jsOr_default]

theorem problemsData_mkPayload (m1 m2 m3 m4 : Js) :
    displayProblemsChartData (mkPayload m1 m2 m3 m4) = do
      let s1 ← jsAdd (jsOr (fieldOf m1 "vulnerabilidades_encontradas") (.num 0))
                     (jsOr (fieldOf m1 "funcoes_sem_tratamento") (.num 0))
      let s2 ← jsAdd (jsOr (fieldOf m2 "estruturas_ineficientes") (.num 0))
                     (jsOr (fieldOf m2 "funcoes_longas") (.num 0))
      let s3 ← jsAdd (jsOr (fieldOf m3 "problemas_tratamento_erros") (.num 0))
                     (jsOr (fieldOf m3 "violacoes_padroes") (.num 0))
      return [s1, s2, s3, jsOr (fieldOf m4 "funcionalidades_sem_teste") (.num 0)] := by
  simp [displayProblemsChartData, extractBundles, mkPayload, getProp_obj, lookupKey,
    jsOr_obj, fieldOf_obj, getProp_jsOr_default]

/-- C1: a validated payload (`analises` and `repositorio_url` both
present) whose `analises` lacks a category section makes the metric
extraction throw (`analises.seguranca.metricas` on `undefined`), and a
category section lacking `dados_completos` makes the recommendation
lookup throw — instead of the graceful empty defaults the claim states. -/
theorem c1_extraction_throws_on_missing_section :
    validatePayload (.obj [("analises", .obj []), ("repositorio_url", .str "u")]) = some true ∧
    extractBundles (.obj [("analises", .obj []), ("repositorio_url", .str "u")]) = none ∧
    displayRecommendationsFor
      (.obj [("analises", .obj [("seguranca", .obj [])]), ("repositorio_url", .str "u")])
      "seguranca" = none :=
  ⟨rfl, rfl, rfl⟩

/-- C2 counterexample: a payload with numeric `score_performance` 150
produces the radar value 150, outside `[0,100]` — `getNumericScore`
passes arbitrary numbers through unchanged. -/
theorem c2_radar_value_out_of_range :
    displayQualityChartData
      (mkPayload (.obj []) (.obj [("score_performance", .num 150)]) (.obj []) (.obj []))
      = some [.num 0, .num 150, .num 0, .num 0] ∧ ¬((150 : Int) ≤ 100) :=
  ⟨rfl, by omega⟩

/-- C2 (amended): the radar dataset always has exactly 4 values in the
fixed category order, and each value is a number in `[0,100]` provided
every numeric metric among the four source fields lies in `[0,100]` and
`cobertura_estimada` is numeric or falsy. -/
theorem c2_radar_values_bounded (m1 m2 m3 m4 : Js)
    (h1 : inRangeLevel (fieldOf m1 "nivel_risco") = true)
    (h2 : inRangeLevel (fieldOf m2 "score_performance") = true)
    (h3 : inRangeLevel (fieldOf m3 "nivel_confiabilidade") = true)
    (h4 : inRangeCobertura (fieldOf m4 "cobertura_estimada") = true) :
    ∃ a b c d : Int,
      displayQualityChartData (mkPayload m1 m2 m3 m4)
        = some [.num a, .num b, .num c, .num d] ∧
      (0 ≤ a ∧ a ≤ 100) ∧ (0 ≤ b ∧ b ≤ 100) ∧ (0 ≤ c ∧ c ≤ 100) ∧ (0 ≤ d ∧ d ≤ 100) := by
  obtain ⟨d4, hd4, hd40, hd41⟩ := jsOr_cobertura h4
  refine ⟨getNumericScore (fieldOf m1 "nivel_risco"),
          getNumericScore (fieldOf m2 "score_performance"),
          getNumericScore (fieldOf m3 "nivel_confiabilidade"), d4, ?_, ?_, ?_, ?_, ?_⟩
  · rw [qualityData_mkPayload, hd4]
  · exact getNumericScore_bounds h1
  · exact getNumericScore_bounds h2
  · exact getNumericScore_bounds h3
  · exact ⟨hd40, hd41⟩

/-- C2 witness: the all-empty payload satisfies the range hypotheses. -/
theorem c2_radar_values_bounded_witness :
    ∃ a b c d : Int,
      displayQualityChartData (mkPayload (.obj []) (.obj []) (.obj []) (.obj []))
        = some [.num a, .num b, .num c, .num d] ∧
      (0 ≤ a ∧ a ≤ 100) ∧ (0 ≤ b ∧ b ≤ 100) ∧ (0 ≤ c ∧ c ≤ 100) ∧ (0 ≤ d ∧ d ≤ 100) :=
  c2_radar_values_bounded (.obj []) (.obj []) (.obj []) (.obj []) rfl rfl rfl rfl

/-- C3 counterexample: a payload carrying both required keys, with
`repositorio_url` the empty string, is rejected — the check is
truthiness, not presence. -/
theorem c3_present_but_falsy_rejected :
    hasKey (.obj [("analises", .obj [("x", .num 1)]), ("repositorio_url", .str "")])
      "analises" = true ∧
    hasKey (.obj [("analises", .obj [("x", .num 1)]), ("repositorio_url", .str "")])
      "repositorio_url" = true ∧
    validatePayload (.obj [("analises", .obj [("x", .num 1)]), ("repositorio_url", .str "")])
      = some false :=
  ⟨rfl, rfl, rfl⟩

/-- C3 (amended): validation rejects exactly when `analises` or
`repositorio_url` is absent **or falsy** (truthiness check); no other
field matters, a `status:"erro"` payload with both fields truthy still
validates, and one without `analises` is rejected. -/
theorem c3_validation_truthiness :
    (∀ kvs : List (String × Js), validatePayload (.obj kvs)
      = some (truthy (lookupKey kvs "analises") && truthy (lookupKey kvs "repositorio_url"))) ∧
    validatePayload
      (.obj [("status", .str "erro"), ("erro_geral", .str "falha"),
             ("analises", .obj []), ("repositorio_url", .str "u")]) = some true ∧
    validatePayload
      (.obj [("status", .str "erro"), ("erro_geral", .str "falha"),
             ("repositorio_url", .str "u")]) = some false :=
  ⟨fun _ => rfl, rfl, rfl⟩

/-- C4: the displayed security score is `"C"` for `nivel_risco` `"Alto"`,
`"B"` for `"Médio"`, and `"A"` for every other primitive value (absent
included); in the spec scenario the score is `"C"` and classifies as
`quality-poor`. -/
theorem c4_security_score (seg v : Js)
    (hv : getProp seg "nivel_risco" = some v) (hp : isPrimitive v = true) :
    (v = .str "Alto" → securityScore seg = some "C") ∧
    (v = .str "Médio" → securityScore seg = some "B") ∧
    (strictEqStr v "Alto" = false → strictEqStr v "Médio" = false →
      securityScore seg = some "A") ∧
    displayMetricsSecurityScore
      (mkPayload (.obj [("nivel_risco", .str "Alto")]) (.obj []) (.obj []) (.obj []))
      = some "C" ∧
    getQualityClass (.str "C") = "quality-poor" := by
  refine ⟨?_, ?_, ?_, rfl, rfl⟩
  · rintro rfl
    simp [securityScore, hv, looseEqStr]
  · rintro rfl
    simp [securityScore, hv, looseEqStr]
  · intro ha hm
    cases v <;> simp_all [securityScore, looseEqStr, strictEqStr, isPrimitive]

/-- C4 witness: `"Baixo"` (and any unrecognized primitive) scores `"A"`. -/
theorem c4_security_score_witness :
    securityScore (.obj [("nivel_risco", .str "Baixo")]) = some "A" :=
  (c4_security_score (.obj [("nivel_risco", .str "Baixo")]) (.str "Baixo")
    rfl rfl).2.2.1 rfl rfl

/-- C5: `getQualityClass` is total — numbers classify by the 80/60/40/20
thresholds, strings by the `A+`/`B`/`C` table with `quality-average` as
the default (so the security letter `"A"` maps to `quality-average`), and
every other value also lands in a class. -/
theorem c5_quality_class_total :
    (∀ n : Int, getQualityClass (.num n) =
      if n ≥ 80 then "quality-excellent" else if n ≥ 60 then "quality-good"
      else if n ≥ 40 then "quality-average" else if n ≥ 20 then "quality-poor"
      else "quality-critical") ∧
    (∀ s : String, getQualityClass (.str s) =
      if s = "A+" then "quality-excellent" else if s = "B" then "quality-good"
      else if s = "C" then "quality-poor" else "quality-average") ∧
    getQualityClass (.str "A") = "quality-average" ∧
    (∀ v : Js, getQualityClass v ∈
      ["quality-excellent", "quality-good", "quality-average", "quality-poor",
       "quality-critical"]) := by
  refine ⟨fun n => rfl, fun s => rfl, rfl, fun v => ?_⟩
  cases v <;> simp only [getQualityClass] <;> first
  | (split_ifs <;> simp)
  | simp

/-- C6 counterexample: an already-array recommendation value keeps its
whitespace-only entries (as trimmed empty strings) — they are not
dropped, contrary to the claim. -/
theorem c6_array_entries_not_dropped :
    normalizeRecommendations (.arr [.str "a", .str "  ", .str "b"]) = some ["a", "", "b"] ∧
    (["a", "", "b"] : List String) ≠ ["a", "b"] :=
  ⟨by decide, by decide⟩

/-- C6 (amended): a string value is split on commas/newlines with parts
trimmed and empty parts dropped (`"a, b,\nc"` gives `["a","b","c"]`); an
array of strings keeps order and trims each entry but keeps empties; any
other value (absent included) yields the empty list. -/
theorem c6_normalization_amended :
    (∀ xs : List String,
      normalizeRecommendations (.arr (xs.map Js.str)) = some (xs.map strTrim)) ∧
    normalizeRecommendations (.str "a, b,\nc") = some ["a", "b", "c"] ∧
    normalizeRecommendations (.str " ,,x , \n y,") = some ["x", "y"] ∧
    normalizeRecommendations .undef = some [] ∧
    normalizeRecommendations .null = some [] ∧
    (∀ b : Bool, normalizeRecommendations (.bool b) = some []) ∧
    (∀ n : Int, normalizeRecommendations (.num n) = some []) ∧
    (∀ kvs : List (String × Js), normalizeRecommendations (.obj kvs) = some []) := by
  refine ⟨?_, by decide, by decide, rfl, rfl, ?_, ?_, fun kvs => rfl⟩
  · intro xs
    simp only [normalizeRecommendations, jsOr, truthy]
    induction xs with
    | nil => rfl
    | cons x xs ih => simp_all [trimAll]
  · intro b
    cases b <;> rfl
  · intro n
    by_cases hn : n = 0 <;>
      simp [normalizeRecommendations, jsOr, truthy, hn, trimAll]

/-- C7: the problem-distribution counts are the category-specific sums
with missing fields counting as zero, in the fixed category order. -/
theorem c7_problem_distribution (m1 m2 m3 m4 : Js)
    (h1 : numOrAbsent (fieldOf m1 "vulnerabilidades_encontradas") = true)
    (h2 : numOrAbsent (fieldOf m1 "funcoes_sem_tratamento") = true)
    (h3 : numOrAbsent (fieldOf m2 "estruturas_ineficientes") = true)
    (h4 : numOrAbsent (fieldOf m2 "funcoes_longas") = true)
    (h5 : numOrAbsent (fieldOf m3 "problemas_tratamento_erros") = true)
    (h6 : numOrAbsent (fieldOf m3 "violacoes_padroes") = true)
    (h7 : numOrAbsent (fieldOf m4 "funcionalidades_sem_teste") = true) :
    displayProblemsChartData (mkPayload m1 m2 m3 m4)
      = some [.num (numD (fieldOf m1 "vulnerabilidades_encontradas")
                    + numD (fieldOf m1 "funcoes_sem_tratamento")),
              .num (numD (fieldOf m2 "estruturas_ineficientes")
                    + numD (fieldOf m2 "funcoes_longas")),
              .num (numD (fieldOf m3 "problemas_tratamento_erros")
                    + numD (fieldOf m3 "violacoes_padroes")),
              .num (numD (fieldOf m4 "funcionalidades_sem_teste"))] := by
  rw [problemsData_mkPayload, jsOr_zero_of_numOrAbsent h1, jsOr_zero_of_numOrAbsent h2,
    jsOr_zero_of_numOrAbsent h3, jsOr_zero_of_numOrAbsent h4, jsOr_zero_of_numOrAbsent h5,
    jsOr_zero_of_numOrAbsent h6, jsOr_zero_of_numOrAbsent h7]
  rfl

/-- C7 witness: an all-empty-metrics report yields counts `[0,0,0,0]`. -/
theorem c7_problem_distribution_witness :
    displayProblemsChartData (mkPayload (.obj []) (.obj []) (.obj []) (.obj []))
      = some [.num 0, .num 0, .num 0, .num 0] :=
  c7_problem_distribution (.obj []) (.obj []) (.obj []) (.obj [])
    rfl rfl rfl rfl rfl rfl rfl

/-- C8: `getNumericScore` passes numbers through unchanged and maps
`Alto`/`Médio`/`Baixo` to 85/65/40 with 0 otherwise; a payload with
`cobertura_estimada` 75 yields radar value 75 (taken directly) and the
displayed testing score `"75%"`. -/
theorem c8_numeric_score :
    (∀ n : Int, getNumericScore (.num n) = n) ∧
    getNumericScore (.str "Alto") = 85 ∧
    getNumericScore (.str "Médio") = 65 ∧
    getNumericScore (.str "Baixo") = 40 ∧
    (∀ v : Js, isOtherLevel v = true → getNumericScore v = 0) ∧
    displayQualityChartData
      (mkPayload (.obj []) (.obj []) (.obj []) (.obj [("cobertura_estimada", .num 75)]))
      = some [.num 0, .num 0, .num 0, .num 75] ∧
    displayMetricsTestingScore
      (mkPayload (.obj []) (.obj []) (.obj []) (.obj [("cobertura_estimada", .num 75)]))
      = some "75%" := by
  refine ⟨fun n => rfl, rfl, rfl, rfl, ?_, rfl, by decide⟩
  intro v hv
  cases v <;> simp_all [isOtherLevel, getNumericScore]

/-- C8 witness: an unrecognized level string maps to 0. -/
theorem c8_numeric_score_witness : getNumericScore (.str "Desconhecido") = 0 :=
  c8_numeric_score.2.2.2.2.1 (.str "Desconhecido") rfl

/-- C10: a file whose MIME type does not contain "json" and whose name
does not end in ".json" is rejected with the user-facing message before
its content is read, leaving the current results untouched — whatever the
content is. -/
theorem c10_reject_before_read (file : JsFile) (cur : Option Js)
    (ht : strContains file.type "json" = false)
    (hn : strEndsWith file.name ".json" = false) :
    handleFile file cur
      = { results := cur, contentRead := false, alertMsg := some msgInvalidFile } := by
  simp [handleFile, ht, hn]

/-- C10 witness: a text file whose content is a perfectly valid analysis
payload is still rejected unread. -/
theorem c10_reject_before_read_witness :
    strContains "text/plain" "json" = false ∧
    strEndsWith "analise.txt" ".json" = false ∧
    handleFile ⟨"text/plain", "analise.txt",
        "\x7b\"analises\": \x7b\x7d, \"repositorio_url\": \"u\"\x7d"⟩ none
      = { results := none, contentRead := false, alertMsg := some msgInvalidFile } :=
  ⟨rfl, rfl, c10_reject_before_read _ _ rfl rfl⟩

end QA

namespace QA

theorem isDigitC_digitChar {n : Nat} (h : n < 10) : isDigitC (digitChar n) = true := by
  interval_cases n <;> decide

theorem digitVal_digitChar {n : Nat} (h : n < 10) : digitVal (digitChar n) = n := by
  interval_cases n <;> decide

theorem isDigitC_elim {c : Char} (h : isDigitC c = true) :
    c = '0' ∨ c = '1' ∨ c = '2' ∨ c = '3' ∨ c = '4' ∨ c = '5' ∨ c = '6' ∨ c = '7' ∨
    c = '8' ∨ c = '9' := by
  simp only [isDigitC, Bool.or_eq_true, beq_iff_eq] at h
  tauto

theorem takeDigits_of_headNotDigit (l : List Char) (acc : Nat) (h : headNotDigit l = true) :
    takeDigits l acc = (acc, l) := by
  cases l with
  | nil => rfl
  | cons c cs =>
    simp only [headNotDigit, Bool.not_eq_true'] at h
    simp [takeDigits, h]

theorem takeDigits_natCharsAux (fuel : Nat) :
    ∀ (n : Nat), n < 10 ^ fuel → ∀ (acc : Nat) (rest : List Char),
      takeDigits (natCharsAux fuel n ++ rest) acc
        = takeDigits rest (acc * 10 ^ (natCharsAux fuel n).length + n) := by
  induction fuel with
  | zero =>
    intro n hn acc rest
    interval_cases n
    simp [natCharsAux]
  | succ fuel ih =>
    intro n hn acc rest
    by_cases h10 : n < 10
    · simp only [natCharsAux, if_pos h10, List.cons_append, List.nil_append]
      simp [takeDigits, isDigitC_digitChar h10, digitVal_digitChar h10]
    · simp only [natCharsAux, if_neg h10]
      rw [List.append_assoc]
      have hdiv : n / 10 < 10 ^ fuel := by
        have h1 : n < 10 ^ fuel * 10 := by
          have := hn
          rw [pow_succ] at this
          exact this
        exact Nat.div_lt_of_lt_mul (by rw [Nat.mul_comm] at h1; exact h1)
      rw [ih (n / 10) hdiv]
      have hm : n % 10 < 10 := Nat.mod_lt _ (by omega)
      simp only [List.cons_append, List.nil_append, takeDigits, isDigitC_digitChar hm,
        if_pos, digitVal_digitChar hm]
      congr 1
      have key : (acc * 10 ^ (natCharsAux fuel (n / 10)).length + n / 10) * 10 + n % 10
          = acc * (10 ^ (natCharsAux fuel (n / 10)).length * 10) + (10 * (n / 10) + n % 10) := by
        ring
      rw [key, Nat.div_add_mod]
      simp [List.length_append, pow_succ]

theorem natCharsAux_head : ∀ (fuel n : Nat), 0 < fuel →
    ∃ c t, natCharsAux fuel n = c :: t ∧ isDigitC c = true := by
  intro fuel
  induction fuel with
  | zero => intro n h; omega
  | succ fuel ih =>
    intro n _
    by_cases h10 : n < 10
    · exact ⟨digitChar n, [], by simp [natCharsAux, h10], isDigitC_digitChar h10⟩
    · by_cases hf : 0 < fuel
      · obtain ⟨c, t, hct, hc⟩ := ih (n / 10) hf
        exact ⟨c, t ++ [digitChar (n % 10)], by simp [natCharsAux, h10, hct], hc⟩
      · have hf0 : fuel = 0 := by omega
        subst hf0
        exact ⟨digitChar (n % 10), [], by simp [natCharsAux, h10],
          isDigitC_digitChar (Nat.mod_lt _ (by omega))⟩

theorem natChars_head (n : Nat) :
    ∃ c t, natChars n = c :: t ∧ isDigitC c = true :=
  natCharsAux_head (n + 1) n (by omega)

theorem parseNatChars_natChars (n : Nat) (rest : List Char) (h : headNotDigit rest = true) :
    parseNatChars (natChars n ++ rest) = some (n, rest) := by
  have hlt : n < 10 ^ (n + 1) :=
    lt_of_lt_of_le (Nat.lt_pow_self (by norm_num) n)
      (Nat.pow_le_pow_right (by norm_num) (Nat.le_succ n))
  obtain ⟨c, t, hct, hc⟩ := natChars_head n
  have htake := takeDigits_natCharsAux (n + 1) n hlt 0 rest
  simp only [natChars] at hct ⊢
  rw [hct] at htake ⊢
  have hstep : takeDigits (c :: (t ++ rest)) 0 = takeDigits (t ++ rest) (digitVal c) := by
    simp [takeDigits, hc]
  rw [List.cons_append] at htake
  rw [hstep] at htake
  simp only [List.cons_append, parseNatChars, hc, if_true, htake, Nat.zero_mul,
    Nat.zero_add]
  rw [takeDigits_of_headNotDigit rest n h]

theorem isDigitC_ne_dash {c : Char} (h : isDigitC c = true) : ¬(c = '-') := by
  rcases isDigitC_elim h with rfl|rfl|rfl|rfl|rfl|rfl|rfl|rfl|rfl|rfl <;> decide

theorem parseIntChars_intChars (i : Int) (rest : List Char) (h : headNotDigit rest = true) :
    parseIntChars (intChars i ++ rest) = some (i, rest) := by
  by_cases hi : i < 0
  · simp only [intChars, if_pos hi, List.cons_append, parseIntChars, if_pos]
    rw [parseNatChars_natChars _ _ h]
    simp only [Option.map_some']
    congr 2
    omega
  · simp only [intChars, if_neg hi]
    obtain ⟨c, t, hct, hc⟩ := natChars_head i.toNat
    rw [hct, List.cons_append, parseIntChars, if_neg (isDigitC_ne_dash hc), ← List.cons_append,
      ← hct, parseNatChars_natChars _ _ h]
    simp only [Option.map_some']
    congr 2
    omega

end QA

namespace QA

theorem parseStrChars_escList : ∀ (cs rest : List Char),
    parseStrChars (escList cs ++ ('"' :: rest)) = some (cs, rest) := by
  intro cs
  induction cs with
  | nil =>
    intro rest
    rw [escList, List.nil_append, parseStrChars.eq_def]
    simp
  | cons c cs ih =>
    intro rest
    simp only [escList, List.append_assoc]
    by_cases h1 : c = '"'
    · subst h1
      rw [show escChar '"' = ['\\', '"'] from rfl, List.cons_append, List.cons_append,
        List.nil_append, parseStrChars.eq_def]
      simp [unescChar, ih]
    · by_cases h2 : c = '\\'
      · subst h2
        rw [show escChar '\\' = ['\\', '\\'] from rfl, List.cons_append, List.cons_append,
          List.nil_append, parseStrChars.eq_def]
        simp [unescChar, ih]
      · by_cases h3 : c = '\n'
        · subst h3
          rw [show escChar '\n' = ['\\', 'n'] from rfl, List.cons_append, List.cons_append,
            List.nil_append, parseStrChars.eq_def]
          simp [unescChar, ih]
        · by_cases h4 : c = '\t'
          · subst h4
            rw [show escChar '\t' = ['\\', 't'] from rfl, List.cons_append, List.cons_append,
              List.nil_append, parseStrChars.eq_def]
            simp [unescChar, ih]
          · by_cases h5 : c = '\r'
            · subst h5
              rw [show escChar '\r' = ['\\', 'r'] from rfl, List.cons_append, List.cons_append,
                List.nil_append, parseStrChars.eq_def]
              simp [unescChar, ih]
            · rw [show escChar c = [c] from by simp [escChar, h1, h2, h3, h4, h5],
                List.cons_append, List.nil_append, parseStrChars.eq_def]
              simp [h1, h2, ih]

theorem skipWS_cons_of_not_ws {c : Char} (h : isWSChar c = false) (l : List Char) :
    skipWS (c :: l) = c :: l := by
  simp [skipWS, List.dropWhile_cons, h]

theorem skipWS_cons_of_ws {c : Char} (h : isWSChar c = true) (l : List Char) :
    skipWS (c :: l) = skipWS l := by
  simp [skipWS, List.dropWhile_cons, h]

theorem skipWS_append_ws : ∀ {w : List Char}, allWS w = true → ∀ (l : List Char),
    skipWS (w ++ l) = skipWS l := by
  intro w
  induction w with
  | nil => intro _ l; rfl
  | cons c cs ih =>
    intro h l
    simp only [allWS, List.all_cons, Bool.and_eq_true] at h
    rw [List.cons_append, skipWS_cons_of_ws h.1, ih h.2]

theorem allWS_indent (d : Nat) : allWS (indentChars d) = true := by
  simp only [allWS, indentChars, List.all_eq_true]
  intro c hc
  rw [List.eq_of_mem_replicate hc]
  rfl

theorem skipWS_indent (d : Nat) (l : List Char) :
    skipWS (indentChars d ++ l) = skipWS l :=
  skipWS_append_ws (allWS_indent d) l

theorem validStart_facts {c : Char} (h : validStart c = true) :
    isWSChar c = false ∧ ¬(c = ']') ∧ ¬(c = '}') := by
  have hmem : c ∈ ['n', 't', 'f', '"', '[', '{', '-',
      '0', '1', '2', '3', '4', '5', '6', '7', '8', '9'] := by
    simp only [validStart, isDigitC, Bool.or_eq_true, beq_iff_eq] at h
    simp only [List.mem_cons, List.not_mem_nil, or_false]
    tauto
  fin_cases hmem <;> exact ⟨rfl, by decide, by decide⟩

theorem renderVal_head (v : Js) (d : Nat) :
    ∃ c t, renderVal v d = c :: t ∧ validStart c = true := by
  cases v with
  | undef => exact ⟨'n', ['u', 'l', 'l'], by simp [renderVal], by decide⟩
  | null => exact ⟨'n', ['u', 'l', 'l'], by simp [renderVal], by decide⟩
  | bool b =>
    cases b with
    | true => exact ⟨'t', ['r', 'u', 'e'], by simp [renderVal], by decide⟩
    | false => exact ⟨'f', ['a', 'l', 's', 'e'], by simp [renderVal], by decide⟩
  | num i =>
    by_cases hi : i < 0
    · exact ⟨'-', natChars i.natAbs, by simp [renderVal, intChars, hi], by decide⟩
    · obtain ⟨c, t, hct, hc⟩ := natChars_head i.toNat
      refine ⟨c, t, ?_, ?_⟩
      · simp [renderVal, intChars, hi, hct]
      · simp [validStart, hc]
  | str s => exact ⟨'"', escList s.data ++ ['"'], by simp [renderVal], by decide⟩
  | arr xs =>
    cases xs with
    | nil => exact ⟨'[', [']'], by simp [renderVal], by decide⟩
    | cons x xs =>
      exact ⟨'[', '\n' :: (indentChars (d + 1) ++ renderVal x (d + 1) ++ renderItems xs (d + 1)
        ++ '\n' :: (indentChars d ++ [']'])), by simp [renderVal], by decide⟩
  | obj kvs =>
    cases kvs with
    | nil => exact ⟨'{', ['}'], by simp [renderVal], by decide⟩
    | cons kv kvs =>
      obtain ⟨k, v⟩ := kv
      exact ⟨'{', '\n' :: (indentChars (d + 1) ++ renderField k v (d + 1) ++ renderFields kvs (d + 1)
        ++ '\n' :: (indentChars d ++ ['}'])), by simp [renderVal], by decide⟩

theorem insertKV_append {k : String} (v : Js) : ∀ {acc : List (String × Js)},
    (∀ q ∈ acc, ¬(q.1 = k)) → insertKV acc k v = acc ++ [(k, v)] := by
  intro acc
  induction acc with
  | nil => intro _; rfl
  | cons a rest ih =>
    intro h
    obtain ⟨k', v'⟩ := a
    have hk : ¬(k' = k) := h (k', v') (List.mem_cons_self _ _)
    simp only [insertKV, if_neg hk, List.cons_append]
    rw [ih (fun q hq => h q (List.mem_cons_of_mem _ hq))]

theorem collapseFields_foldl : ∀ (fs acc : List (String × Js)),
    nodupKeysB fs = true →
    (∀ p ∈ fs, ∀ q ∈ acc, ¬(p.1 = q.1)) →
    fs.foldl (fun acc kv => insertKV acc kv.1 kv.2) acc = acc ++ fs := by
  intro fs
  induction fs with
  | nil => intro acc _ _; simp
  | cons f rest ih =>
    intro acc hnd hdisj
    obtain ⟨k, v⟩ := f
    simp only [nodupKeysB, Bool.and_eq_true, Bool.not_eq_true', List.any_eq_false] at hnd
    simp only [List.foldl_cons]
    rw [insertKV_append v (fun q hq =>
      fun he => hdisj (k, v) (List.mem_cons_self _ _) q hq he.symm)]
    rw [ih (acc ++ [(k, v)]) hnd.2 ?disj]
    · simp
    case disj =>
      intro p hp q hq
      rcases List.mem_append.mp hq with hq | hq
      · exact hdisj p (List.mem_cons_of_mem _ hp) q hq
      · have hq1 : q = (k, v) := by simpa using hq
        subst hq1
        have := hnd.1 p hp
        simpa using this

theorem collapseFields_of_nodup {fs : List (String × Js)} (h : nodupKeysB fs = true) :
    collapseFields fs = fs := by
  have := collapseFields_foldl fs [] h (by simp)
  simpa [collapseFields] using this

end QA

namespace QA

theorem pfuel_pos (v : Js) : 1 ≤ pfuel v := by
  cases v with
  | undef => simp [pfuel]
  | null => simp [pfuel]
  | bool b => simp [pfuel]
  | num n => simp [pfuel]
  | str s => simp [pfuel]
  | arr xs => cases xs <;> simp only [pfuel] <;> omega
  | obj kvs => cases kvs <;> simp only [pfuel] <;> omega

theorem pfuelList_pos (x : Js) (xs : List Js) : 1 ≤ pfuelList (x :: xs) := by
  cases xs <;> simp only [pfuelList] <;> omega

theorem pfuelFields_pos (kv : String × Js) (kvs : List (String × Js)) :
    1 ≤ pfuelFields (kv :: kvs) := by
  obtain ⟨k, v⟩ := kv
  cases kvs <;> simp only [pfuelFields] <;> omega

theorem pfuel_le_pfuelList (x : Js) (xs : List Js) : pfuel x + 1 ≤ pfuelList (x :: xs) := by
  cases xs with
  | nil => simp only [pfuelList]; omega
  | cons y ys =>
    simp only [pfuelList]
    have := Nat.le_max_left (pfuel x) (pfuelList (y :: ys))
    omega

theorem pfuelList_tail (x y : Js) (ys : List Js) :
    pfuelList (y :: ys) + 1 ≤ pfuelList (x :: y :: ys) := by
  simp only [pfuelList]
  have := Nat.le_max_right (pfuel x) (pfuelList (y :: ys))
  omega

theorem pfuel_le_pfuelFields (k : String) (v : Js) (kvs : List (String × Js)) :
    pfuel v + 1 ≤ pfuelFields ((k, v) :: kvs) := by
  cases kvs with
  | nil => simp only [pfuelFields]; omega
  | cons kv2 kvs2 =>
    simp only [pfuelFields]
    have := Nat.le_max_left (pfuel v) (pfuelFields (kv2 :: kvs2))
    omega

theorem pfuelFields_tail (k : String) (v : Js) (kv2 : String × Js) (kvs : List (String × Js)) :
    pfuelFields (kv2 :: kvs) + 1 ≤ pfuelFields ((k, v) :: kv2 :: kvs) := by
  simp only [pfuelFields]
  have := Nat.le_max_right (pfuel v) (pfuelFields (kv2 :: kvs))
  omega

theorem isDigitC_not_ws {c : Char} (hc : isDigitC c = true) : isWSChar c = false := by
  rcases isDigitC_elim hc with rfl|rfl|rfl|rfl|rfl|rfl|rfl|rfl|rfl|rfl <;> decide

theorem isDigitC_dispatch {c : Char} (hc : isDigitC c = true) :
    ¬(c = 'n') ∧ ¬(c = 't') ∧ ¬(c = 'f') ∧ ¬(c = '"') ∧ ¬(c = '[') ∧ ¬(c = '{') := by
  rcases isDigitC_elim hc with rfl|rfl|rfl|rfl|rfl|rfl|rfl|rfl|rfl|rfl <;>
    exact ⟨by decide, by decide, by decide, by decide, by decide, by decide⟩

theorem headNotDigit_renderItems (xs : List Js) (d : Nat) (c : Char) (l : List Char)
    (hc : isDigitC c = false) :
    headNotDigit (renderItems xs d ++ c :: l) = true := by
  cases xs with
  | nil =>
    simp only [renderItems, List.nil_append, headNotDigit, hc]
    rfl
  | cons y ys =>
    rw [show renderItems (y :: ys) d
        = ',' :: '\n' :: (indentChars d ++ renderVal y d ++ renderItems ys d)
      from by simp [renderItems]]
    rfl

theorem headNotDigit_renderFields (kvs : List (String × Js)) (d : Nat) (c : Char)
    (l : List Char) (hc : isDigitC c = false) :
    headNotDigit (renderFields kvs d ++ c :: l) = true := by
  cases kvs with
  | nil =>
    simp only [renderFields, List.nil_append, headNotDigit, hc]
    rfl
  | cons kv kvs2 =>
    obtain ⟨k2, v2⟩ := kv
    rw [show renderFields ((k2, v2) :: kvs2) d
        = ',' :: '\n' :: (indentChars d ++ renderField k2 v2 d ++ renderFields kvs2 d)
      from by simp [renderFields]]
    rfl

theorem strMk_data (s : String) : String.mk s.data = s := rfl

theorem allWS_nl_indent (d : Nat) : allWS ('\n' :: indentChars d) = true := by
  simp only [allWS, List.all_cons, Bool.and_eq_true]
  exact ⟨rfl, allWS_indent d⟩

end QA

namespace QA

mutual

theorem parse_render (v : Js) (d fuel : Nat) (rest w : List Char)
    (hwf : wfJson v = true) (hfl : pfuel v ≤ fuel)
    (hrest : headNotDigit rest = true) (hw : allWS w = true) :
    parseVal fuel (w ++ renderVal v d ++ rest) = some (v, rest) := by
  obtain ⟨f, rfl⟩ : ∃ f, fuel = f + 1 := ⟨fuel - 1, by have := pfuel_pos v; omega⟩
  rw [List.append_assoc]
  cases v with
  | undef => simp [wfJson] at hwf
  | null =>
    rw [show renderVal Js.null d = ['n', 'u', 'l', 'l'] from by simp [renderVal]]
    simp only [parseVal]
    rw [skipWS_append_ws hw]
    rw [show (['n', 'u', 'l', 'l'] : List Char) ++ rest = 'n' :: 'u' :: 'l' :: 'l' :: rest
      from rfl]
    rw [skipWS_cons_of_not_ws (by decide)]
    simp
  | bool b =>
    cases b with
    | true =>
      rw [show renderVal (Js.bool true) d = ['t', 'r', 'u', 'e'] from by simp [renderVal]]
      simp only [parseVal]
      rw [skipWS_append_ws hw]
      rw [show (['t', 'r', 'u', 'e'] : List Char) ++ rest = 't' :: 'r' :: 'u' :: 'e' :: rest
        from rfl]
      rw [skipWS_cons_of_not_ws (by decide)]
      simp
    | false =>
      rw [show renderVal (Js.bool false) d = ['f', 'a', 'l', 's', 'e'] from by
        simp [renderVal]]
      simp only [parseVal]
      rw [skipWS_append_ws hw]
      rw [show (['f', 'a', 'l', 's', 'e'] : List Char) ++ rest
          = 'f' :: 'a' :: 'l' :: 's' :: 'e' :: rest from rfl]
      rw [skipWS_cons_of_not_ws (by decide)]
      simp
  | num i =>
    rw [show renderVal (Js.num i) d = intChars i from by simp [renderVal]]
    simp only [parseVal]
    rw [skipWS_append_ws hw]
    by_cases hi : i < 0
    · rw [show intChars i = '-' :: natChars i.natAbs from by simp [intChars, hi],
        List.cons_append, skipWS_cons_of_not_ws (by decide)]
      simp only [show ¬(('-' : Char) = 'n') from by decide, if_neg,
        show ¬(('-' : Char) = 't') from by decide, show ¬(('-' : Char) = 'f') from by decide,
        show ¬(('-' : Char) = '"') from by decide, show ¬(('-' : Char) = '[') from by decide,
        show ¬(('-' : Char) = '{') from by decide, if_pos,
        show (('-' : Char) = '-' || isDigitC '-') = true from by decide]
      rw [← List.cons_append, ← show intChars i = '-' :: natChars i.natAbs from by
        simp [intChars, hi]]
      rw [parseIntChars_intChars i rest hrest]
      rfl
    · obtain ⟨c, t, hct, hc⟩ := natChars_head i.toNat
      have hic : intChars i = c :: t := by rw [intChars, if_neg hi, hct]
      obtain ⟨hn1, hn2, hn3, hn4, hn5, hn6⟩ := isDigitC_dispatch hc
      rw [hic, List.cons_append, skipWS_cons_of_not_ws (isDigitC_not_ws hc)]
      simp only [hn1, hn2, hn3, hn4, hn5, hn6, if_neg, if_pos,
        show (c = '-' || isDigitC c) = true from by simp [hc]]
      rw [← List.cons_append, ← hic, parseIntChars_intChars i rest hrest]
      rfl
  | str s =>
    rw [show renderVal (Js.str s) d = '"' :: (escList s.data ++ ['"']) from by
      simp [renderVal]]
    simp only [List.cons_append, List.append_assoc, List.singleton_append, List.nil_append]
    simp only [parseVal]
    rw [skipWS_append_ws hw, skipWS_cons_of_not_ws (by decide)]
    simp only [show (('"' : Char) = 'n') = False from by decide,
      show (('"' : Char) = 't') = False from by decide,
      show (('"' : Char) = 'f') = False from by decide,
      show (('"' : Char) = '"') = True from by decide, if_false, if_true]
    rw [parseStrChars_escList s.data rest]
    simp [strMk_data]
  | arr xs =>
    cases xs with
    | nil =>
      rw [show renderVal (Js.arr []) d = ['[', ']'] from by simp [renderVal]]
      simp only [parseVal]
      rw [skipWS_append_ws hw]
      rw [show (['[', ']'] : List Char) ++ rest = '[' :: ']' :: rest from rfl]
      rw [skipWS_cons_of_not_ws (by decide)]
      simp only [show (('[' : Char) = 'n') = False from by decide,
        show (('[' : Char) = 't') = False from by decide,
        show (('[' : Char) = 'f') = False from by decide,
        show (('[' : Char) = '"') = False from by decide,
        show (('[' : Char) = '[') = True from by decide, if_false, if_true]
      rw [skipWS_cons_of_not_ws (by decide)]
      simp
    | cons x xs =>
      have hwf2 : wfJson x = true ∧ wfJsonList xs = true := by
        have : wfJsonList (x :: xs) = true := by
          rw [show wfJson (Js.arr (x :: xs)) = wfJsonList (x :: xs) from by
            simp [wfJson]] at hwf
          exact hwf
        simpa [wfJsonList, Bool.and_eq_true] using this
      have hfl2 : pfuelList (x :: xs) ≤ f := by
        rw [show pfuel (Js.arr (x :: xs)) = 1 + pfuelList (x :: xs) from by simp [pfuel]]
          at hfl
        omega
      rw [show renderVal (Js.arr (x :: xs)) d
          = '[' :: '\n' :: (indentChars (d + 1) ++ renderVal x (d + 1)
            ++ renderItems xs (d + 1) ++ '\n' :: (indentChars d ++ [']']))
        from by simp [renderVal]]
      simp only [List.cons_append, List.append_assoc, List.singleton_append, List.nil_append]
      simp only [parseVal]
      rw [skipWS_append_ws hw, skipWS_cons_of_not_ws (by decide)]
      simp only [show (('[' : Char) = 'n') = False from by decide,
        show (('[' : Char) = 't') = False from by decide,
        show (('[' : Char) = 'f') = False from by decide,
        show (('[' : Char) = '"') = False from by decide,
        show (('[' : Char) = '[') = True from by decide, if_false, if_true]
      obtain ⟨c1, t1, hct1, hvs1⟩ := renderVal_head x (d + 1)
      have h1 := validStart_facts hvs1
      have hskip2 : skipWS ('\n' :: (indentChars (d + 1) ++ (renderVal x (d + 1)
            ++ (renderItems xs (d + 1) ++ '\n' :: (indentChars d ++ ']' :: rest)))))
          = renderVal x (d + 1)
            ++ (renderItems xs (d + 1) ++ '\n' :: (indentChars d ++ ']' :: rest)) := by
        rw [skipWS_cons_of_ws (by decide), skipWS_indent, hct1, List.cons_append,
          skipWS_cons_of_not_ws h1.1, ← List.cons_append]
      rw [hskip2]
      split
      next t heq =>
        rw [hct1, List.cons_append] at heq
        simp only [List.cons.injEq] at heq
        exact absurd heq.1 h1.2.1
      next l2 heq =>
        have hpi := parse_render_items x xs (d + 1) d f rest [] hwf2.1 hwf2.2 hfl2 hrest rfl
        simp only [List.nil_append] at hpi
        rw [hpi]
        rfl
  | obj kvs =>
    cases kvs with
    | nil =>
      rw [show renderVal (Js.obj []) d = ['{', '}'] from by simp [renderVal]]
      simp only [parseVal]
      rw [skipWS_append_ws hw]
      rw [show (['{', '}'] : List Char) ++ rest = '{' :: '}' :: rest from rfl]
      rw [skipWS_cons_of_not_ws (by decide)]
      simp only [show (('{' : Char) = 'n') = False from by decide,
        show (('{' : Char) = 't') = False from by decide,
        show (('{' : Char) = 'f') = False from by decide,
        show (('{' : Char) = '"') = False from by decide,
        show (('{' : Char) = '[') = False from by decide,
        show (('{' : Char) = '{') = True from by decide, if_false, if_true]
      rw [skipWS_cons_of_not_ws (by decide)]
      simp
    | cons kv kvs =>
      obtain ⟨k, v⟩ := kv
      have hnd : nodupKeysB ((k, v) :: kvs) = true ∧ wfJsonFields ((k, v) :: kvs) = true := by
        rw [show wfJson (Js.obj ((k, v) :: kvs))
            = (nodupKeysB ((k, v) :: kvs) && wfJsonFields ((k, v) :: kvs)) from by
          simp [wfJson]] at hwf
        simpa [Bool.and_eq_true] using hwf
      have hwf2 : wfJson v = true ∧ wfJsonFields kvs = true := by
        have := hnd.2
        simpa [wfJsonFields, Bool.and_eq_true] using this
      have hfl2 : pfuelFields ((k, v) :: kvs) ≤ f := by
        rw [show pfuel (Js.obj ((k, v) :: kvs)) = 1 + pfuelFields ((k, v) :: kvs) from by
          simp [pfuel]] at hfl
        omega
      rw [show renderVal (Js.obj ((k, v) :: kvs)) d
          = '{' :: '\n' :: (indentChars (d + 1) ++ renderField k v (d + 1)
            ++ renderFields kvs (d + 1) ++ '\n' :: (indentChars d ++ ['}']))
        from by simp [renderVal]]
      simp only [List.cons_append, List.append_assoc, List.singleton_append, List.nil_append]
      simp only [parseVal]
      rw [skipWS_append_ws hw, skipWS_cons_of_not_ws (by decide)]
      simp only [show (('{' : Char) = 'n') = False from by decide,
        show (('{' : Char) = 't') = False from by decide,
        show (('{' : Char) = 'f') = False from by decide,
        show (('{' : Char) = '"') = False from by decide,
        show (('{' : Char) = '[') = False from by decide,
        show (('{' : Char) = '{') = True from by decide, if_false, if_true]
      have hskip2 : skipWS ('\n' :: (indentChars (d + 1) ++ (renderField k v (d + 1)
            ++ (renderFields kvs (d + 1) ++ '\n' :: (indentChars d ++ '}' :: rest)))))
          = renderField k v (d + 1)
            ++ (renderFields kvs (d + 1) ++ '\n' :: (indentChars d ++ '}' :: rest)) := by
        rw [skipWS_cons_of_ws (by decide), skipWS_indent]
        rw [show renderField k v (d + 1)
            = '"' :: (escList k.data ++ ('"' :: ':' :: ' ' :: renderVal v (d + 1))) from by
          simp [renderField]]
        rw [List.cons_append, skipWS_cons_of_not_ws (by decide), ← List.cons_append]
      rw [hskip2]
      split
      next t heq =>
        rw [show renderField k v (d + 1)
            = '"' :: (escList k.data ++ ('"' :: ':' :: ' ' :: renderVal v (d + 1))) from by
          simp [renderField], List.cons_append] at heq
        simp only [List.cons.injEq] at heq
        exact absurd heq.1 (by decide)
      next l2 heq =>
        have hpf := parse_render_fields k v kvs (d + 1) d f rest [] hwf2.1 hwf2.2 hfl2 hrest rfl
        simp only [List.nil_append] at hpf
        rw [hpf]
        simp only [Option.map_some']
        rw [collapseFields_of_nodup hnd.1]
termination_by fuel

theorem parse_render_items (x : Js) (xs : List Js) (d dc fuel : Nat) (rest w : List Char)
    (hwx : wfJson x = true) (hwxs : wfJsonList xs = true)
    (hfl : pfuelList (x :: xs) ≤ fuel)
    (hrest : headNotDigit rest = true) (hw : allWS w = true) :
    parseItems fuel (w ++ renderVal x d
        ++ (renderItems xs d ++ '\n' :: (indentChars dc ++ ']' :: rest)))
      = some (x :: xs, rest) := by
  obtain ⟨f, rfl⟩ : ∃ f, fuel = f + 1 :=
    ⟨fuel - 1, by have := pfuelList_pos x xs; omega⟩
  have hfx : pfuel x ≤ f := by have := pfuel_le_pfuelList x xs; omega
  have hrx : headNotDigit (renderItems xs d ++ '\n' :: (indentChars dc ++ ']' :: rest))
      = true := headNotDigit_renderItems xs d '\n' _ (by decide)
  simp only [parseItems]
  rw [parse_render x d f (renderItems xs d ++ '\n' :: (indentChars dc ++ ']' :: rest)) w
    hwx hfx hrx hw]
  simp only [Option.bind_eq_bind, Option.some_bind]
  cases xs with
  | nil =>
    rw [show renderItems ([] : List Js) d = [] from by simp [renderItems], List.nil_append,
      skipWS_cons_of_ws (by decide), skipWS_indent, skipWS_cons_of_not_ws (by decide)]
    rfl
  | cons y ys =>
    have hwy : wfJson y = true ∧ wfJsonList ys = true := by
      simpa [wfJsonList, Bool.and_eq_true] using hwxs
    have hfy : pfuelList (y :: ys) ≤ f := by
      have := pfuelList_tail x y ys
      omega
    have hiy := parse_render_items y ys d dc f rest ('\n' :: indentChars d)
      hwy.1 hwy.2 hfy hrest (allWS_nl_indent d)
    simp only [List.cons_append, List.append_assoc] at hiy
    rw [show renderItems (y :: ys) d
        = ',' :: '\n' :: (indentChars d ++ renderVal y d ++ renderItems ys d) from by
      simp [renderItems]]
    simp only [List.cons_append, List.append_assoc]
    rw [skipWS_cons_of_not_ws (by decide)]
    split
    next r2 heq =>
      simp only [List.cons.injEq] at heq
      rw [← heq.2, hiy]
      rfl
    next r2 heq =>
      simp only [List.cons.injEq] at heq
      exact absurd heq.1 (by decide)
    next heq1 heq2 =>
      exact (heq1 _ rfl).elim
termination_by fuel

theorem parse_render_fields (k : String) (v : Js) (kvs : List (String × Js))
    (d dc fuel : Nat) (rest w : List Char)
    (hwv : wfJson v = true) (hwkvs : wfJsonFields kvs = true)
    (hfl : pfuelFields ((k, v) :: kvs) ≤ fuel)
    (hrest : headNotDigit rest = true) (hw : allWS w = true) :
    parseFields fuel (w ++ renderField k v d
        ++ (renderFields kvs d ++ '\n' :: (indentChars dc ++ '}' :: rest)))
      = some ((k, v) :: kvs, rest) := by
  obtain ⟨f, rfl⟩ : ∃ f, fuel = f + 1 :=
    ⟨fuel - 1, by have := pfuelFields_pos (k, v) kvs; omega⟩
  have hfv : pfuel v ≤ f := by have := pfuel_le_pfuelFields k v kvs; omega
  have hrv : headNotDigit (renderFields kvs d ++ '\n' :: (indentChars dc ++ '}' :: rest))
      = true := headNotDigit_renderFields kvs d '\n' _ (by decide)
  have hv := parse_render v d f
    (renderFields kvs d ++ '\n' :: (indentChars dc ++ '}' :: rest)) [' ']
    hwv hfv hrv (by decide)
  simp only [List.cons_append, List.append_assoc, List.singleton_append,
    List.nil_append] at hv
  simp only [parseFields]
  rw [show renderField k v d
      = '"' :: (escList k.data ++ ('"' :: ':' :: ' ' :: renderVal v d)) from by
    simp [renderField]]
  simp only [List.cons_append, List.append_assoc]
  rw [skipWS_append_ws hw, skipWS_cons_of_not_ws (by decide)]
  split
  next cs heq =>
    simp only [List.cons.injEq, true_and] at heq
    rw [← heq]
    rw [parseStrChars_escList k.data]
    simp only [Option.bind_eq_bind, Option.some_bind]
    rw [skipWS_cons_of_not_ws (by decide)]
    split
    next r2 heq2 =>
      simp only [List.cons.injEq, true_and] at heq2
      rw [← heq2, hv]
      simp only [Option.bind_eq_bind, Option.some_bind]
      cases kvs with
      | nil =>
        rw [show renderFields ([] : List (String × Js)) d = [] from by simp [renderFields],
          List.nil_append, skipWS_cons_of_ws (by decide), skipWS_indent,
          skipWS_cons_of_not_ws (by decide)]
        rfl
      | cons kv2 kvs2 =>
        obtain ⟨k2, v2⟩ := kv2
        have hw2 : wfJson v2 = true ∧ wfJsonFields kvs2 = true := by
          simpa [wfJsonFields, Bool.and_eq_true] using hwkvs
        have hf2 : pfuelFields ((k2, v2) :: kvs2) ≤ f := by
          have := pfuelFields_tail k v (k2, v2) kvs2
          omega
        have hif := parse_render_fields k2 v2 kvs2 d dc f rest ('\n' :: indentChars d)
          hw2.1 hw2.2 hf2 hrest (allWS_nl_indent d)
        simp only [List.cons_append, List.append_assoc] at hif
        rw [show renderFields ((k2, v2) :: kvs2) d
            = ',' :: '\n' :: (indentChars d ++ renderField k2 v2 d ++ renderFields kvs2 d)
          from by simp [renderFields]]
        simp only [List.cons_append, List.append_assoc]
        rw [skipWS_cons_of_not_ws (by decide)]
        split
        next r4 heq3 =>
          simp only [List.cons.injEq, true_and] at heq3
          rw [← heq3, hif]
          rfl
        next r4 heq3 =>
          simp only [List.cons.injEq] at heq3
          exact absurd heq3.1 (by decide)
        next heq3 heq4 =>
          exact (heq3 _ rfl).elim
    next r2 heq2 =>
      exact (heq2 _ rfl).elim
  next heq =>
    exact (heq _ rfl).elim
termination_by fuel

end

end QA

namespace QA

mutual

theorem pfuel_le_render (v : Js) (d : Nat) : pfuel v ≤ (renderVal v d).length + 1 := by
  cases v with
  | undef => simp [pfuel]
  | null => simp [pfuel]
  | bool b => simp [pfuel]
  | num i => simp [pfuel]
  | str s => simp [pfuel]
  | arr xs =>
    cases xs with
    | nil => simp [pfuel]
    | cons x xs =>
      have h := pfuelList_le_items x xs (d + 1)
      rw [show pfuel (Js.arr (x :: xs)) = 1 + pfuelList (x :: xs) from by simp [pfuel]]
      rw [show renderVal (Js.arr (x :: xs)) d
          = '[' :: '\n' :: (indentChars (d + 1) ++ renderVal x (d + 1)
            ++ renderItems xs (d + 1) ++ '\n' :: (indentChars d ++ [']']))
        from by simp [renderVal]]
      simp only [List.length_cons, List.length_append]
      omega
  | obj kvs =>
    cases kvs with
    | nil => simp [pfuel]
    | cons kv kvs =>
      obtain ⟨k, v⟩ := kv
      have h := pfuelFields_le_fields (k, v) kvs (d + 1)
      dsimp only at h
      rw [show pfuel (Js.obj ((k, v) :: kvs)) = 1 + pfuelFields ((k, v) :: kvs) from by
        simp [pfuel]]
      rw [show renderVal (Js.obj ((k, v) :: kvs)) d
          = '{' :: '\n' :: (indentChars (d + 1) ++ renderField k v (d + 1)
            ++ renderFields kvs (d + 1) ++ '\n' :: (indentChars d ++ ['}']))
        from by simp [renderVal]]
      simp only [List.length_cons, List.length_append]
      omega
termination_by sizeOf v

theorem pfuelList_le_items (x : Js) (xs : List Js) (d : Nat) :
    pfuelList (x :: xs) ≤ (renderVal x d).length + (renderItems xs d).length + 2 := by
  cases xs with
  | nil =>
    have h := pfuel_le_render x d
    simp only [pfuelList]
    omega
  | cons y ys =>
    have h1 := pfuel_le_render x d
    have h2 := pfuelList_le_items y ys d
    rw [show pfuelList (x :: y :: ys) = 1 + max (pfuel x) (pfuelList (y :: ys)) from by
      simp [pfuelList]]
    rw [show renderItems (y :: ys) d
        = ',' :: '\n' :: (indentChars d ++ renderVal y d ++ renderItems ys d) from by
      simp [renderItems]]
    simp only [List.length_cons, List.length_append]
    omega
termination_by sizeOf x + sizeOf xs

theorem pfuelFields_le_fields (kv : String × Js) (kvs : List (String × Js)) (d : Nat) :
    pfuelFields (kv :: kvs)
      ≤ (renderField kv.1 kv.2 d).length + (renderFields kvs d).length + 2 := by
  obtain ⟨k, v⟩ := kv
  dsimp only
  cases kvs with
  | nil =>
    have h := pfuel_le_render v d
    rw [show pfuelFields [(k, v)] = 1 + pfuel v from by simp [pfuelFields]]
    rw [show renderField k v d
        = '"' :: (escList k.data ++ ('"' :: ':' :: ' ' :: renderVal v d)) from by
      simp [renderField]]
    simp only [List.length_cons, List.length_append]
    omega
  | cons kv2 kvs2 =>
    obtain ⟨k2, v2⟩ := kv2
    have h1 := pfuel_le_render v d
    have h2 := pfuelFields_le_fields (k2, v2) kvs2 d
    dsimp only at h2
    rw [show pfuelFields ((k, v) :: (k2, v2) :: kvs2)
        = 1 + max (pfuel v) (pfuelFields ((k2, v2) :: kvs2)) from by simp [pfuelFields]]
    rw [show renderField k v d
        = '"' :: (escList k.data ++ ('"' :: ':' :: ' ' :: renderVal v d)) from by
      simp [renderField]]
    rw [show renderFields ((k2, v2) :: kvs2) d
        = ',' :: '\n' :: (indentChars d ++ renderField k2 v2 d ++ renderFields kvs2 d)
      from by simp [renderFields]]
    simp only [List.length_cons, List.length_append]
    omega
termination_by sizeOf kv + sizeOf kvs

end

/-- C9: for every canonical report (a JSON-representable value, as every
payload produced by `JSON.parse` is, that passed the import validation),
re-importing the exported pretty-printed JSON document reproduces the
report exactly. -/
theorem c9_export_import_roundtrip (R : Js) (hwf : wfJson R = true)
    (hval : validatePayload R = some true) :
    importJSON (exportJSON R) = some R := by
  have hlen : pfuel R ≤ (renderVal R 0).length + 1 := pfuel_le_render R 0
  have hparse := parse_render R 0 ((renderVal R 0).length + 1) [] [] hwf hlen rfl rfl
  simp only [List.append_nil, List.nil_append] at hparse
  unfold importJSON parseJsonText exportJSON
  rw [show (String.mk (renderVal R 0)).data = renderVal R 0 from rfl, hparse]
  have hfin : (match validatePayload R with
      | some true => some R
      | _ => none) = some R := by rw [hval]
  exact hfin

/-- C9 witness: a concrete validated report survives the round trip. -/
theorem c9_export_import_roundtrip_witness :
    wfJson (.obj [("analises", .obj []), ("repositorio_url", .str "u")]) = true ∧
    validatePayload (.obj [("analises", .obj []), ("repositorio_url", .str "u")])
      = some true ∧
    importJSON (exportJSON (.obj [("analises", .obj []), ("repositorio_url", .str "u")]))
      = some (.obj [("analises", .obj []), ("repositorio_url", .str "u")]) :=
  ⟨by simp [wfJson, wfJsonFields, nodupKeysB], rfl,
    c9_export_import_roundtrip _ (by simp [wfJson, wfJsonFields, nodupKeysB]) rfl⟩

end QA
